import Mathlib

/-!
# Verification of the open-webui async job queue core

Shallow embedding of the job-queue engine of this repository:

* `backend/open_webui/models/jobs.py` — the job store DAL
  (`JobsTable.update_job_*`, `JobArchiveTable.archive_old_jobs`,
  `JobArchiveTable.get_combined_analytics` daily bucketing),
* `backend/open_webui/utils/job_scheduler.py` — `_claim_next_queued_job`,
* `backend/open_webui/routers/jobs.py` — `submit_job`, `_run_job`, `get_job`,
  `_to_response`, `_cache_job`,
* `backend/open_webui/routers/ollama.py` — `get_ollama_url` backend selection,
  `update_token_stats` / `_update_token_stats_memory`.

The database is modelled as a `List JobRow` (list order = rowid / insertion
order); SQL floats are modelled as `ℚ` (the arithmetic the spec describes is
exact at this granularity); JSON payloads (`request` / `result`) and error
messages are opaque and modelled as `String`.  Each Lean definition mirrors
one Python function, keeping its name where Lean allows.
-/

/-- Values of the `status` column (`JOB_STATUS_*` constants in `models/jobs.py`). -/
inductive JobStatus where
  | queued
  | running
  | completed
  | failed
  | cancelled
deriving DecidableEq, Repr

/-- Terminal statuses: `TERMINAL_STATUSES = {completed, failed, cancelled}` in `models/jobs.py`. -/
def JobStatus.isTerminal : JobStatus → Bool
  | .completed => true
  | .failed => true
  | .cancelled => true
  | _ => false

/-- A row of the `job` table (`class Job` in `models/jobs.py`).
JSON payloads are opaque and modelled as `String`. -/
structure JobRow where
  id : String
  user_id : String
  status : JobStatus
  priority : Int
  priority_score : ℚ
  model_id : Option String
  backend_url : Option String
  request : Option String
  result : Option String
  error : Option String
  attempt_count : Nat
  max_attempts : Nat
  created_at : Nat
  updated_at : Nat
deriving DecidableEq, Repr

/-- Lookup `db.query(Job).filter(Job.id == job_id).first()`. -/
def findJob (s : List JobRow) (jobId : String) : Option JobRow :=
  s.find? (fun r => r.id = jobId)

/-- Mutating the ORM object returned by `.first()`: the first row with the
given id is replaced by `f` applied to it; all other rows are untouched. -/
def updateFirst : List JobRow → String → (JobRow → JobRow) → List JobRow
  | [], _, _ => []
  | r :: rest, jobId, f =>
      if r.id = jobId then f r :: rest else r :: updateFirst rest jobId f

/-- Embeds `JobsTable.insert_new_job` (`models/jobs.py`): new row appended in
`queued` state with `attempt_count = 0`, `priority_score = float(priority)`,
`backend_url = None`, `created_at = updated_at = now`. -/
def insert_new_job (now : Nat) (jobId user_id model_id : String)
    (request_payload : String) (priority : Int) (max_attempts : Nat)
    (s : List JobRow) : JobRow × List JobRow :=
  let job : JobRow :=
    { id := jobId
      user_id := user_id
      status := .queued
      priority := priority
      priority_score := (priority : ℚ)
      model_id := some model_id
      backend_url := none
      request := some request_payload
      result := none
      error := none
      attempt_count := 0
      max_attempts := max_attempts
      created_at := now
      updated_at := now }
  (job, s ++ [job])

/-- Embeds `JobsTable.update_job_running` (`models/jobs.py`): unconditionally sets
`status = RUNNING`, increments `attempt_count`, records `backend_url` when
the argument is truthy (`if backend_url:`), stamps `updated_at`. -/
def update_job_running (now : Nat) (s : List JobRow) (jobId : String)
    (backend_url : Option String) : Option JobRow × List JobRow :=
  match findJob s jobId with
  | none => (none, s)
  | some _ =>
      let f : JobRow → JobRow := fun j =>
        { j with
          status := .running
          attempt_count := j.attempt_count + 1
          backend_url :=
            match backend_url with
            | some u => if u = "" then j.backend_url else some u
            | none => j.backend_url
          updated_at := now }
      let s' := updateFirst s jobId f
      (findJob s' jobId, s')

/-- Embeds `JobsTable.update_job_completed` (`models/jobs.py`): unconditionally sets
`status = COMPLETED`, stores `result`, clears `error`, stamps `updated_at`.
There is no check of the row's current (possibly terminal) status. -/
def update_job_completed (now : Nat) (s : List JobRow) (jobId : String)
    (result : String) : Option JobRow × List JobRow :=
  match findJob s jobId with
  | none => (none, s)
  | some _ =>
      let f : JobRow → JobRow := fun j =>
        { j with
          status := .completed
          result := some result
          error := none
          updated_at := now }
      let s' := updateFirst s jobId f
      (findJob s' jobId, s')

/-- Embeds `JobsTable.update_job_failed` (`models/jobs.py`): sets `error`; status
becomes `QUEUED` when `requeue and attempt_count < max_attempts`, else
`FAILED`; stamps `updated_at`.  No check of the current status. -/
def update_job_failed (now : Nat) (s : List JobRow) (jobId : String)
    (error : String) (requeue : Bool) : Option JobRow × List JobRow :=
  match findJob s jobId with
  | none => (none, s)
  | some _ =>
      let f : JobRow → JobRow := fun j =>
        { j with
          error := some error
          status :=
            if requeue ∧ j.attempt_count < j.max_attempts then .queued
            else .failed
          updated_at := now }
      let s' := updateFirst s jobId f
      (findJob s' jobId, s')

/-- Embeds `JobsTable.update_job_cancelled` (`models/jobs.py`): a terminal row is
returned as-is; otherwise status becomes `CANCELLED`. -/
def update_job_cancelled (now : Nat) (s : List JobRow) (jobId : String) :
    Option JobRow × List JobRow :=
  match findJob s jobId with
  | none => (none, s)
  | some j =>
      if j.status.isTerminal then (some j, s)
      else
        let f : JobRow → JobRow := fun j =>
          { j with status := .cancelled, updated_at := now }
        let s' := updateFirst s jobId f
        (findJob s' jobId, s')

/-- Embeds `JobsTable.retry_job` (`models/jobs.py`): admin retry — resets the row to
`QUEUED`, clears `error`, `attempt_count = 0`,
`priority_score = float(priority)`. -/
def retry_job (now : Nat) (s : List JobRow) (jobId : String) :
    Option JobRow × List JobRow :=
  match findJob s jobId with
  | none => (none, s)
  | some _ =>
      let f : JobRow → JobRow := fun j =>
        { j with
          status := .queued
          error := none
          attempt_count := 0
          priority_score := (j.priority : ℚ)
          updated_at := now }
      let s' := updateFirst s jobId f
      (findJob s' jobId, s')

/-! ## Basic lemmas about the table model -/

theorem findJob_updateFirst (s : List JobRow) (jobId : String)
    (f : JobRow → JobRow) (hid : ∀ j, (f j).id = j.id) :
    findJob (updateFirst s jobId f) jobId = (findJob s jobId).map f := by
  induction s with
  | nil => rfl
  | cons r rest ih =>
      by_cases h : r.id = jobId
      · simp [updateFirst, findJob, h, List.find?_cons, hid r]
      · simp only [updateFirst, if_neg h, findJob, List.find?_cons] at ih ⊢
        rw [decide_eq_false h]
        simpa using ih

/-- Sample row used by concrete witnesses and counterexamples. -/
def sampleRow : JobRow :=
  { id := "job-1"
    user_id := "alice"
    status := .queued
    priority := 5
    priority_score := 5
    model_id := some "llama3"
    backend_url := none
    request := some "req"
    result := none
    error := none
    attempt_count := 0
    max_attempts := 3
    created_at := 100
    updated_at := 100 }

/-! ## `_claim_next_queued_job` (`utils/job_scheduler.py`)

The SQL `ORDER BY priority_score DESC, created_at ASC ... .first()` over the
`queued` rows is modelled by a left fold that keeps the first row (in rowid =
list order) that no later row strictly precedes. -/

/-- Row `r` comes strictly before `c` under
`ORDER BY priority_score DESC, created_at ASC`. -/
def precedesInClaimOrder (r c : JobRow) : Prop :=
  c.priority_score < r.priority_score ∨
    (r.priority_score = c.priority_score ∧ r.created_at < c.created_at)

instance (r c : JobRow) : Decidable (precedesInClaimOrder r c) :=
  inferInstanceAs (Decidable (_ ∨ _))

/-- Fold selecting the first-best `queued` row together with its position. -/
def claimGo : List JobRow → Nat → Option (JobRow × Nat) → Option (JobRow × Nat)
  | [], _, acc => acc
  | r :: rest, i, acc =>
      if r.status = .queued then
        match acc with
        | none => claimGo rest (i + 1) (some (r, i))
        | some (c, ci) =>
            if precedesInClaimOrder r c then claimGo rest (i + 1) (some (r, i))
            else claimGo rest (i + 1) (some (c, ci))
      else claimGo rest (i + 1) acc

/-- Embeds `_claim_next_queued_job` (`utils/job_scheduler.py`): select the `queued`
row first under `priority_score DESC, created_at ASC`, flip it to `running`,
increment `attempt_count`, stamp `updated_at`, commit, and return its id;
`None` (and no change) when nothing is queued. -/
def claim_next_queued_job (now : Nat) (s : List JobRow) :
    Option String × List JobRow :=
  match claimGo s 0 none with
  | none => (none, s)
  | some (c, i) =>
      (some c.id,
        s.set i
          { c with
            status := .running
            attempt_count := c.attempt_count + 1
            updated_at := now })

theorem precedes_irrefl (r : JobRow) : ¬ precedesInClaimOrder r r := by
  simp [precedesInClaimOrder]

theorem precedes_trans {a b c : JobRow} (h1 : precedesInClaimOrder a b)
    (h2 : precedesInClaimOrder b c) : precedesInClaimOrder a c := by
  rcases h1 with h1 | ⟨h1, h1'⟩ <;> rcases h2 with h2 | ⟨h2, h2'⟩
  · exact Or.inl (h2.trans h1)
  · exact Or.inl (h2 ▸ h1)
  · exact Or.inl (h1 ▸ h2)
  · exact Or.inr ⟨h1.trans h2, h1'.trans h2'⟩

theorem precedes_asymm {a b : JobRow} (h : precedesInClaimOrder a b) :
    ¬ precedesInClaimOrder b a := by
  rcases h with h | ⟨h, h'⟩ <;> rintro (g | ⟨g, g'⟩)
  · exact absurd (h.trans g) (lt_irrefl _)
  · exact absurd h (g ▸ lt_irrefl _)
  · exact absurd g (h ▸ lt_irrefl _)
  · omega

theorem not_precedes_of_not_precedes_of_precedes {r c0 c : JobRow}
    (hr : ¬ precedesInClaimOrder r c0) (hc : precedesInClaimOrder c c0) :
    ¬ precedesInClaimOrder r c := fun hrc => hr (precedes_trans hrc hc)

/-- If nothing in `l` is queued, the fold leaves the accumulator alone. -/
theorem claimGo_no_queued (l : List JobRow) (i : Nat)
    (acc : Option (JobRow × Nat)) (h : ∀ r ∈ l, r.status ≠ .queued) :
    claimGo l i acc = acc := by
  induction l generalizing i with
  | nil => rfl
  | cons r rest ih =>
      have hr := h r (List.mem_cons_self r rest)
      simp only [claimGo, if_neg hr]
      exact ih _ (fun x hx => h x (List.mem_cons_of_mem r hx))

/-- The fold never drops a `some` accumulator. -/
theorem claimGo_some_acc (l : List JobRow) :
    ∀ (i : Nat) (x : JobRow × Nat), ∃ y, claimGo l i (some x) = some y := by
  induction l with
  | nil => exact fun i x => ⟨x, rfl⟩
  | cons r rest ih =>
      intro i x
      by_cases hq : r.status = .queued
      · simp only [claimGo, if_pos hq]
        by_cases hp : precedesInClaimOrder r x.1
        · simpa [hp] using ih (i + 1) (r, i)
        · simpa [hp] using ih (i + 1) x
      · simpa [claimGo, hq] using ih (i + 1) x

/-- With a queued row present the fold yields `some`. -/
theorem claimGo_some_of_queued (l : List JobRow) :
    ∀ (i : Nat) (acc : Option (JobRow × Nat)),
      (∃ r ∈ l, r.status = .queued) → ∃ y, claimGo l i acc = some y := by
  induction l with
  | nil => rintro i acc ⟨r, hr, -⟩; cases hr
  | cons r rest ih =>
      rintro i acc ⟨x, hx, hxq⟩
      by_cases hq : r.status = .queued
      · simp only [claimGo, if_pos hq]
        cases acc with
        | none => exact claimGo_some_acc rest (i + 1) (r, i)
        | some p =>
            by_cases hp : precedesInClaimOrder r p.1
            · simpa [hp] using claimGo_some_acc rest (i + 1) (r, i)
            · simpa [hp] using claimGo_some_acc rest (i + 1) p
      · rcases List.mem_cons.mp hx with rfl | hx'
        · exact absurd hxq hq
        · simpa [claimGo, hq] using ih (i + 1) acc ⟨x, hx', hxq⟩

/-- Full characterisation of a `some` result of the fold: the winner is not
preceded by any queued row of `l`, and either it is the incoming accumulator
or it is a queued element of `l` at the reported position that is equal to or
precedes the incoming accumulator. -/
theorem claimGo_some_spec (l : List JobRow) :
    ∀ (i0 : Nat) (acc : Option (JobRow × Nat)) (c : JobRow) (i : Nat),
      claimGo l i0 acc = some (c, i) →
      (∀ r ∈ l, r.status = .queued → ¬ precedesInClaimOrder r c) ∧
      (acc = some (c, i) ∨
        ((∃ j, ∃ hj : j < l.length, l.get ⟨j, hj⟩ = c ∧ i = i0 + j) ∧
          c.status = .queued ∧
          (∀ c0 ci0, acc = some (c0, ci0) →
            c = c0 ∨ precedesInClaimOrder c c0))) := by
  induction l with
  | nil =>
      intro i0 acc c i h
      exact ⟨fun r hr => absurd hr (List.not_mem_nil r), Or.inl h⟩
  | cons r rest ih =>
      intro i0 acc c i h
      by_cases hq : r.status = .queued
      · simp only [claimGo, if_pos hq] at h
        cases acc with
        | none =>
            have spec := ih (i0 + 1) (some (r, i0)) c i h
            have hrc : ¬ precedesInClaimOrder r c := by
              rcases spec.2 with heq | ⟨-, -, hrel⟩
              · cases heq; exact precedes_irrefl _
              · rcases hrel r i0 rfl with rfl | hp
                · exact precedes_irrefl c
                · exact precedes_asymm hp
            refine ⟨?_, Or.inr ⟨?_, ?_, ?_⟩⟩
            · intro x hx hxq
              rcases List.mem_cons.mp hx with rfl | hx'
              · exact hrc
              · exact spec.1 x hx' hxq
            · rcases spec.2 with heq | ⟨⟨j, hj, hget, hi⟩, -, -⟩
              · obtain ⟨heq1, heq2⟩ := Prod.mk.inj (Option.some.inj heq)
                exact ⟨0, by simp, by simp [heq1], by simp [heq2]⟩
              · exact ⟨j + 1, by simpa using hj, by simpa using hget, by omega⟩
            · rcases spec.2 with heq | ⟨-, hcq, -⟩
              · obtain ⟨heq1, -⟩ := Prod.mk.inj (Option.some.inj heq)
                exact heq1 ▸ hq
              · exact hcq
            · intro c0 ci0 hacc; cases hacc
        | some p =>
            obtain ⟨c0, ci0⟩ := p
            by_cases hp : precedesInClaimOrder r c0
            · simp only [if_pos hp] at h
              have spec := ih (i0 + 1) (some (r, i0)) c i h
              have hcr : c = r ∨ precedesInClaimOrder c r := by
                rcases spec.2 with heq | ⟨-, -, hrel⟩
                · obtain ⟨heq1, -⟩ := Prod.mk.inj (Option.some.inj heq)
                  exact Or.inl heq1.symm
                · exact hrel r i0 rfl
              have hrc : ¬ precedesInClaimOrder r c := by
                rcases hcr with rfl | hcr
                · exact precedes_irrefl c
                · exact precedes_asymm hcr
              refine ⟨?_, Or.inr ⟨?_, ?_, ?_⟩⟩
              · intro x hx hxq
                rcases List.mem_cons.mp hx with rfl | hx'
                · exact hrc
                · exact spec.1 x hx' hxq
              · rcases spec.2 with heq | ⟨⟨j, hj, hget, hi⟩, -, -⟩
                · obtain ⟨heq1, heq2⟩ := Prod.mk.inj (Option.some.inj heq)
                  exact ⟨0, by simp, by simp [heq1], by simp [heq2]⟩
                · exact ⟨j + 1, by simpa using hj, by simpa using hget, by omega⟩
              · rcases spec.2 with heq | ⟨-, hcq, -⟩
                · obtain ⟨heq1, -⟩ := Prod.mk.inj (Option.some.inj heq)
                  exact heq1 ▸ hq
                · exact hcq
              · rintro c0' ci0' heq
                obtain ⟨heq1, -⟩ := Prod.mk.inj (Option.some.inj heq)
                subst heq1
                rcases hcr with rfl | hcr
                · exact Or.inr hp
                · exact Or.inr (precedes_trans hcr hp)
            · simp only [if_neg hp] at h
              have spec := ih (i0 + 1) (some (c0, ci0)) c i h
              have hcc0 : c = c0 ∨ precedesInClaimOrder c c0 := by
                rcases spec.2 with heq | ⟨-, -, hrel⟩
                · obtain ⟨heq1, -⟩ := Prod.mk.inj (Option.some.inj heq)
                  exact Or.inl heq1.symm
                · exact hrel c0 ci0 rfl
              have hrc : ¬ precedesInClaimOrder r c := by
                rcases hcc0 with rfl | hcc0
                · exact hp
                · exact not_precedes_of_not_precedes_of_precedes hp hcc0
              refine ⟨?_, ?_⟩
              · intro x hx hxq
                rcases List.mem_cons.mp hx with rfl | hx'
                · exact hrc
                · exact spec.1 x hx' hxq
              · rcases spec.2 with heq | ⟨⟨j, hj, hget, hi⟩, hcq, -⟩
                · exact Or.inl heq
                · refine Or.inr ⟨⟨j + 1, by simpa using hj, by simpa using hget,
                    by omega⟩, hcq, ?_⟩
                  rintro c0' ci0' heq
                  obtain ⟨heq1, -⟩ := Prod.mk.inj (Option.some.inj heq)
                  subst heq1
                  exact hcc0
      · simp only [claimGo, if_neg hq] at h
        have spec := ih (i0 + 1) acc c i h
        refine ⟨?_, ?_⟩
        · intro x hx hxq
          rcases List.mem_cons.mp hx with rfl | hx'
          · exact absurd hxq hq
          · exact spec.1 x hx' hxq
        · rcases spec.2 with heq | ⟨⟨j, hj, hget, hi⟩, hcq, hrel⟩
          · exact Or.inl heq
          · exact Or.inr ⟨⟨j + 1, by simpa using hj, by simpa using hget,
              by omega⟩, hcq, hrel⟩

/-- C1: `_claim_next_queued_job` atomically (one state transition) selects
the `queued` row that comes first under `priority_score DESC, created_at
ASC`, flips it to `running`, increments its `attempt_count` by exactly 1,
stamps `updated_at = now`, leaves every other row unchanged (`List.set` at
its position), and returns that row (its id); when no row is `queued` it
returns `None` and the state is unchanged. -/
theorem claim_next_queued_job_spec (now : Nat) (s : List JobRow) :
    ((∀ r ∈ s, r.status ≠ .queued) →
      claim_next_queued_job now s = (none, s)) ∧
    ((∃ r ∈ s, r.status = .queued) →
      ∃ i, ∃ hi : i < s.length,
        (s.get ⟨i, hi⟩).status = .queued ∧
        (∀ r ∈ s, r.status = .queued →
          r.priority_score < (s.get ⟨i, hi⟩).priority_score ∨
            (r.priority_score = (s.get ⟨i, hi⟩).priority_score ∧
              (s.get ⟨i, hi⟩).created_at ≤ r.created_at)) ∧
        claim_next_queued_job now s =
          (some (s.get ⟨i, hi⟩).id,
            s.set i
              { s.get ⟨i, hi⟩ with
                status := .running
                attempt_count := (s.get ⟨i, hi⟩).attempt_count + 1
                updated_at := now })) := by
  constructor
  · intro h
    unfold claim_next_queued_job
    rw [claimGo_no_queued s 0 none h]
  · intro h
    obtain ⟨⟨c, i⟩, hy⟩ := claimGo_some_of_queued s 0 none h
    have spec := claimGo_some_spec s 0 none c i hy
    rcases spec.2 with heq | ⟨⟨j, hj, hget, hi⟩, hcq, -⟩
    · cases heq
    · refine ⟨j, hj, ?_, ?_, ?_⟩
      · rw [hget]; exact hcq
      · intro r hr hrq
        have hnp := spec.1 r hr hrq
        rw [hget]
        by_cases hps : r.priority_score = c.priority_score
        · refine Or.inr ⟨hps, ?_⟩
          by_contra hca
          push_neg at hca
          exact hnp (Or.inr ⟨hps, hca⟩)
        · rcases lt_trichotomy r.priority_score c.priority_score with h1 | h1 | h1
          · exact Or.inl h1
          · exact absurd h1 hps
          · exact absurd (Or.inl h1) hnp
      · have hij : i = j := by omega
        subst hij
        unfold claim_next_queued_job
        rw [hy, hget]

/-- Two-job state used by the C1 witness: the `priority_score = 7` job must
be claimed ahead of the `priority_score = 5` job. -/
def claimWitnessState : List JobRow :=
  [{ sampleRow with id := "job-low", priority_score := 5, created_at := 100 },
   { sampleRow with id := "job-high", priority_score := 7, created_at := 200 }]

/-- Witness for C1: a queued row exists in `claimWitnessState`, so a claim
happens exactly as described. -/
theorem claim_next_queued_job_spec_witness :
    ∃ i, ∃ hi : i < claimWitnessState.length,
      (claimWitnessState.get ⟨i, hi⟩).status = .queued ∧
      (∀ r ∈ claimWitnessState, r.status = .queued →
        r.priority_score < (claimWitnessState.get ⟨i, hi⟩).priority_score ∨
          (r.priority_score = (claimWitnessState.get ⟨i, hi⟩).priority_score ∧
            (claimWitnessState.get ⟨i, hi⟩).created_at ≤ r.created_at)) ∧
      claim_next_queued_job 500 claimWitnessState =
        (some (claimWitnessState.get ⟨i, hi⟩).id,
          claimWitnessState.set i
            { claimWitnessState.get ⟨i, hi⟩ with
              status := .running
              attempt_count := (claimWitnessState.get ⟨i, hi⟩).attempt_count + 1
              updated_at := 500 }) :=
  (claim_next_queued_job_spec 500 claimWitnessState).2
    ⟨{ sampleRow with id := "job-low", priority_score := 5, created_at := 100 },
      List.mem_cons_self _ _, rfl⟩

/-- C2 fails on the code: `update_job_failed` has no terminal-status guard,
so a `cancelled` (terminal) job with `requeue=True` and
`attempt_count < max_attempts` is moved back to `queued` — a transition out
of a terminal state by an operation other than admin retry. -/
theorem update_job_failed_requeues_cancelled_job :
    (({ sampleRow with status := .cancelled } : JobRow).status.isTerminal
        = true) ∧
    (update_job_failed 200 [{ sampleRow with status := .cancelled }]
        "job-1" "boom" true).1.map JobRow.status = some .queued := by
  constructor <;> rfl

/-- C3 fails on the code: `update_job_completed` unconditionally overwrites
the status, so a job already `cancelled` when the worker writes its terminal
result ends up `completed`, not `cancelled`. -/
theorem update_job_completed_overwrites_cancelled_job :
    (({ sampleRow with status := .cancelled } : JobRow).status.isTerminal
        = true) ∧
    (update_job_completed 200 [{ sampleRow with status := .cancelled }]
        "job-1" "done").1.map JobRow.status = some .completed := by
  constructor <;> rfl

/-- C4: for every existing job, `update_job_failed` sets `error` and yields
`queued` exactly when `requeue` holds and `attempt_count < max_attempts`,
otherwise `failed`; in particular with `requeue=True` it yields `failed` at
`attempt_count == max_attempts` and `queued` below it. -/
theorem update_job_failed_spec (now : Nat) (s : List JobRow)
    (jobId err : String) (requeue : Bool) (j : JobRow)
    (hfind : findJob s jobId = some j) :
    ∃ j', (update_job_failed now s jobId err requeue).1 = some j' ∧
      j'.error = some err ∧
      (j'.status = .queued ↔ (requeue ∧ j.attempt_count < j.max_attempts)) ∧
      (j'.status = .failed ↔ ¬(requeue ∧ j.attempt_count < j.max_attempts)) ∧
      (requeue = true → j.attempt_count = j.max_attempts →
        j'.status = .failed) ∧
      (requeue = true → j.attempt_count < j.max_attempts →
        j'.status = .queued) := by
  have hmain : (update_job_failed now s jobId err requeue).1 =
      some { j with
              error := some err
              status :=
                if requeue ∧ j.attempt_count < j.max_attempts then .queued
                else .failed
              updated_at := now } := by
    unfold update_job_failed
    rw [hfind]
    simp only
    have hstep := findJob_updateFirst s jobId
      (fun j => { j with
          error := some err
          status :=
            if requeue ∧ j.attempt_count < j.max_attempts then .queued
            else .failed
          updated_at := now }) (fun r => rfl)
    rw [hstep, hfind, Option.map_some']
  refine ⟨_, hmain, rfl, ?_, ?_, ?_, ?_⟩
  · by_cases hc : (requeue : Prop) ∧ j.attempt_count < j.max_attempts
    · simp only [if_pos hc]; simp [hc]
    · simp only [if_neg hc]; simp [hc]
  · by_cases hc : (requeue : Prop) ∧ j.attempt_count < j.max_attempts
    · simp only [if_pos hc]; simp [hc]
    · simp only [if_neg hc]; simp [hc]
  · intro h1 h2
    have : ¬((requeue : Prop) ∧ j.attempt_count < j.max_attempts) := by
      rintro ⟨-, hlt⟩; omega
    simp only [if_neg this]
  · intro h1 h2
    exact if_pos ⟨h1, h2⟩

/-- Witness for C4 at a concrete queued job with `attempt_count = 0 < 3`. -/
theorem update_job_failed_spec_witness :
    ∃ j', (update_job_failed 200 [sampleRow] "job-1" "boom" true).1 = some j' ∧
      j'.error = some "boom" ∧
      (j'.status = .queued ↔
        (true ∧ sampleRow.attempt_count < sampleRow.max_attempts)) ∧
      (j'.status = .failed ↔
        ¬(true ∧ sampleRow.attempt_count < sampleRow.max_attempts)) ∧
      (true = true → sampleRow.attempt_count = sampleRow.max_attempts →
        j'.status = .failed) ∧
      (true = true → sampleRow.attempt_count < sampleRow.max_attempts →
        j'.status = .queued) :=
  update_job_failed_spec 200 [sampleRow] "job-1" "boom" true sampleRow rfl

/-! ## Backend selection — `get_ollama_url` (`routers/ollama.py`)

For each candidate index the code gathers
`{active_jobs, avg_response_time, health_status}` into `server_metrics`,
filters out `unhealthy` entries (falling back to the full list when that
leaves none), then scans for the strictly smallest
`W_jobs·active_jobs + W_latency·(avg_response_time/1000)` starting from
`min_score = inf`, `best_url_idx = None`; `random.choice` is only consulted
when `best_url_idx` is still `None` after the scan. -/

/-- Health states returned by `get_health_status` (`routers/ollama.py`). -/
inductive HealthStatus where
  | healthy
  | unhealthy
  | unknown
deriving DecidableEq, Repr

/-- One entry of the `server_metrics` list built inside `get_ollama_url`. -/
structure ServerMetric where
  idx : Nat
  active_jobs : Int
  avg_response_time : ℚ
  health_status : HealthStatus
deriving DecidableEq, Repr

/-- Score formula `score = active_jobs_weight * active_jobs +
response_time_weight * (avg_response_time / 1000.0)`. -/
def lbScore (wJobs wLat : ℚ) (m : ServerMetric) : ℚ :=
  wJobs * (m.active_jobs : ℚ) + wLat * (m.avg_response_time / 1000)

/-- The `for metrics in healthy_metrics: if score < min_score: ...` scan;
the accumulator is `None` while `min_score` is still `inf`. -/
def selectGo (wJ wL : ℚ) : List ServerMetric → Option (ℚ × Nat) →
    Option (ℚ × Nat)
  | [], acc => acc
  | m :: rest, acc =>
      let sc := lbScore wJ wL m
      match acc with
      | none => selectGo wJ wL rest (some (sc, m.idx))
      | some (best, bi) =>
          if sc < best then selectGo wJ wL rest (some (sc, m.idx))
          else selectGo wJ wL rest (some (best, bi))

/-- The selection performed by `get_ollama_url` when `url_idx is None`:
drop unhealthy candidates (fall back to all when none remain), scan for the
minimum score, and only fall back to the random draw (`randomChoice`, the
value `random.choice(candidate_urls)` would produce) when the scan found no
best index. -/
def get_ollama_url_select (wJ wL : ℚ) (server_metrics : List ServerMetric)
    (randomChoice : Nat) : Nat :=
  let healthy :=
    server_metrics.filter (fun m => decide (m.health_status ≠ .unhealthy))
  let pool := if healthy.isEmpty then server_metrics else healthy
  match selectGo wJ wL pool none with
  | none => randomChoice
  | some (_, bi) => bi

/-- Scanning from accumulator `(b, bi)` keeps it unless a strictly smaller
score appears, in which case the result is the earliest strict improver's
final refinement. -/
theorem selectGo_some_spec (wJ wL : ℚ) (l : List ServerMetric) :
    ∀ b bi, ∃ res, selectGo wJ wL l (some (b, bi)) = some res ∧
      ((res = (b, bi) ∧ ∀ m ∈ l, b ≤ lbScore wJ wL m) ∨
        (∃ k, ∃ hk : k < l.length,
          res = (lbScore wJ wL (l.get ⟨k, hk⟩), (l.get ⟨k, hk⟩).idx) ∧
          res.1 < b ∧
          (∀ m ∈ l, res.1 ≤ lbScore wJ wL m) ∧
          (∀ j, ∀ hj : j < l.length, j < k →
            res.1 < lbScore wJ wL (l.get ⟨j, hj⟩)))) := by
  induction l with
  | nil =>
      intro b bi
      exact ⟨(b, bi), rfl, Or.inl ⟨rfl, fun m hm => absurd hm (List.not_mem_nil m)⟩⟩
  | cons m rest ih =>
      intro b bi
      by_cases hlt : lbScore wJ wL m < b
      · obtain ⟨res, hres, hcase⟩ := ih (lbScore wJ wL m) m.idx
        refine ⟨res, ?_, ?_⟩
        · simpa [selectGo, hlt] using hres
        · rcases hcase with ⟨rfl, hall⟩ | ⟨k, hk, hresq, hlt', hall, hbefore⟩
          · refine Or.inr ⟨0, by simp, by simp, by simpa using hlt, ?_, ?_⟩
            · intro x hx
              rcases List.mem_cons.mp hx with rfl | hx'
              · simp
              · exact hall x hx'
            · intro j hj hj0; omega
          · refine Or.inr ⟨k + 1, by simpa using hk, by simpa using hresq,
              hlt'.trans hlt, ?_, ?_⟩
            · intro x hx
              rcases List.mem_cons.mp hx with rfl | hx'
              · exact le_of_lt hlt'
              · exact hall x hx'
            · intro j hj hjk
              cases j with
              | zero => simpa using hlt'
              | succ j' =>
                  have hj' : j' < rest.length := by simpa using hj
                  have := hbefore j' hj' (by omega)
                  simpa using this
      · obtain ⟨res, hres, hcase⟩ := ih b bi
        refine ⟨res, ?_, ?_⟩
        · simpa [selectGo, hlt] using hres
        · rcases hcase with ⟨rfl, hall⟩ | ⟨k, hk, hresq, hlt', hall, hbefore⟩
          · refine Or.inl ⟨rfl, ?_⟩
            intro x hx
            rcases List.mem_cons.mp hx with rfl | hx'
            · exact le_of_not_lt hlt
            · exact hall x hx'
          · refine Or.inr ⟨k + 1, by simpa using hk, by simpa using hresq,
              hlt', ?_, ?_⟩
            · intro x hx
              rcases List.mem_cons.mp hx with rfl | hx'
              · exact le_of_lt (lt_of_lt_of_le hlt' (le_of_not_lt hlt))
              · exact hall x hx'
            · intro j hj hjk
              cases j with
              | zero => exact lt_of_lt_of_le hlt' (by simpa using le_of_not_lt hlt)
              | succ j' =>
                  have hj' : j' < rest.length := by simpa using hj
                  have := hbefore j' hj' (by omega)
                  simpa using this

/-- Scanning a non-empty list from `min_score = inf` returns the earliest
element achieving the minimum score. -/
theorem selectGo_none_spec (wJ wL : ℚ) (l : List ServerMetric) (hne : l ≠ []) :
    ∃ k, ∃ hk : k < l.length,
      selectGo wJ wL l none
        = some (lbScore wJ wL (l.get ⟨k, hk⟩), (l.get ⟨k, hk⟩).idx) ∧
      (∀ m ∈ l, lbScore wJ wL (l.get ⟨k, hk⟩) ≤ lbScore wJ wL m) ∧
      (∀ j, ∀ hj : j < l.length, j < k →
        lbScore wJ wL (l.get ⟨k, hk⟩) < lbScore wJ wL (l.get ⟨j, hj⟩)) := by
  cases l with
  | nil => exact absurd rfl hne
  | cons m rest =>
      obtain ⟨res, hres, hcase⟩ := selectGo_some_spec wJ wL rest
        (lbScore wJ wL m) m.idx
      rcases hcase with ⟨rfl, hall⟩ | ⟨k, hk, hresq, hlt', hall, hbefore⟩
      · refine ⟨0, by simp, ?_, ?_, ?_⟩
        · simpa [selectGo] using hres
        · intro x hx
          rcases List.mem_cons.mp hx with rfl | hx'
          · simp
          · exact hall x hx'
        · intro j hj hj0; omega
      · subst hresq
        refine ⟨k + 1, by simpa using hk, ?_, ?_, ?_⟩
        · simp only [selectGo]
          rw [hres]
          simp
        · intro x hx
          rcases List.mem_cons.mp hx with rfl | hx'
          · simpa using le_of_lt hlt'
          · simpa using hall x hx'
        · intro j hj hjk
          cases j with
          | zero => simpa using hlt'
          | succ j' =>
              have hj' : j' < rest.length := by simpa using hj
              have := hbefore j' hj' (by omega)
              simpa using this

/-- The candidate pool actually scored: unhealthy candidates dropped, with
fallback to the full list when the drop leaves none
(`healthy_metrics = ... ; if not healthy_metrics: healthy_metrics =
server_metrics`). -/
def lbPool (ms : List ServerMetric) : List ServerMetric :=
  if (ms.filter (fun m => decide (m.health_status ≠ .unhealthy))).isEmpty
  then ms
  else ms.filter (fun m => decide (m.health_status ≠ .unhealthy))

theorem lbPool_ne_nil (ms : List ServerMetric) (hne : ms ≠ []) :
    lbPool ms ≠ [] := by
  unfold lbPool
  by_cases h : (ms.filter (fun m => decide (m.health_status ≠ .unhealthy))).isEmpty
  · rw [if_pos h]; exact hne
  · rw [if_neg h]
    intro hcon
    rw [hcon] at h
    exact h rfl

theorem lbPool_subset (ms : List ServerMetric) :
    ∀ m ∈ lbPool ms, m ∈ ms := by
  intro m hm
  unfold lbPool at hm
  by_cases h : (ms.filter (fun m => decide (m.health_status ≠ .unhealthy))).isEmpty
  · rw [if_pos h] at hm; exact hm
  · rw [if_neg h] at hm; exact List.mem_of_mem_filter hm

/-- Two candidates with no recorded metrics at all (`active_jobs = 0`,
`avg_response_time = 0.0`, health unknown). -/
def noMetricsCandidates : List ServerMetric :=
  [{ idx := 0, active_jobs := 0, avg_response_time := 0,
     health_status := .unknown },
   { idx := 1, active_jobs := 0, avg_response_time := 0,
     health_status := .unknown }]

/-- C5 counterexample: with two metric-less candidates, the claim's step 5
("pick uniformly at random") fails — the result is candidate 0 regardless of
the random draw (second equation: even a draw of 0 vs a draw of 1 gives the
same output), because the first candidate's score `0 < inf` already sets
`best_url_idx`, making the `random.choice` fallback unreachable. -/
theorem get_ollama_url_select_ignores_random_draw :
    get_ollama_url_select 1 1 noMetricsCandidates 1 = 0 ∧
    get_ollama_url_select 1 1 noMetricsCandidates 0 = 0 := by
  have hpool : lbPool noMetricsCandidates = noMetricsCandidates := by
    simp [lbPool, noMetricsCandidates]
  have hsel : selectGo 1 1 noMetricsCandidates none = some (0, 0) := by
    norm_num [selectGo, noMetricsCandidates, lbScore]
  constructor
  · show (match selectGo 1 1 (lbPool noMetricsCandidates) none with
      | none => 1
      | some (_, bi) => bi) = 0
    rw [hpool, hsel]
  · show (match selectGo 1 1 (lbPool noMetricsCandidates) none with
      | none => 0
      | some (_, bi) => bi) = 0
    rw [hpool, hsel]

/-- C5 amended: for a non-empty candidate set, `get_ollama_url` drops
unhealthy candidates (falling back to the full set when none remain), picks
the candidate minimising `W_jobs·active_jobs + W_latency·(avg_ms/1000)` with
ties broken by candidate order (every earlier pool element scores strictly
higher), and when no candidate has any metrics it deterministically picks
the first pool candidate — never the random draw. -/
theorem get_ollama_url_select_spec (wJ wL : ℚ) (ms : List ServerMetric)
    (r : Nat) (hne : ms ≠ []) :
    ∃ k, ∃ hk : k < (lbPool ms).length,
      get_ollama_url_select wJ wL ms r = ((lbPool ms).get ⟨k, hk⟩).idx ∧
      (∀ m ∈ lbPool ms,
        lbScore wJ wL ((lbPool ms).get ⟨k, hk⟩) ≤ lbScore wJ wL m) ∧
      (∀ j, ∀ hj : j < (lbPool ms).length, j < k →
        lbScore wJ wL ((lbPool ms).get ⟨k, hk⟩)
          < lbScore wJ wL ((lbPool ms).get ⟨j, hj⟩)) ∧
      ((∀ m ∈ ms, m.active_jobs = 0 ∧ m.avg_response_time = 0) → k = 0) := by
  obtain ⟨k, hk, hsel, hmin, hbefore⟩ :=
    selectGo_none_spec wJ wL (lbPool ms) (lbPool_ne_nil ms hne)
  refine ⟨k, hk, ?_, hmin, hbefore, ?_⟩
  · show (match selectGo wJ wL (lbPool ms) none with
      | none => r
      | some (_, bi) => bi) = ((lbPool ms).get ⟨k, hk⟩).idx
    rw [hsel]
  · intro hnom
    by_contra hk0
    have hkpos : 0 < k := Nat.pos_of_ne_zero hk0
    have h0 : (0 : ℕ) < (lbPool ms).length := lt_of_le_of_lt (Nat.zero_le _) hk
    have hz : ∀ m ∈ lbPool ms, lbScore wJ wL m = 0 := by
      intro m hm
      obtain ⟨h1, h2⟩ := hnom m (lbPool_subset ms m hm)
      simp [lbScore, h1, h2]
    have hlt := hbefore 0 h0 hkpos
    rw [hz _ (List.get_mem _ _ _), hz _ (List.get_mem _ _ _)] at hlt
    exact lt_irrefl 0 hlt

/-- Candidates for the C5 witness: the idle backend (index 1) must win over
the loaded one (index 0). -/
def lbWitnessCandidates : List ServerMetric :=
  [{ idx := 0, active_jobs := 5, avg_response_time := 100,
     health_status := .healthy },
   { idx := 1, active_jobs := 0, avg_response_time := 0,
     health_status := .healthy }]

/-- Witness for the amended C5 at a concrete two-backend pool. -/
theorem get_ollama_url_select_spec_witness :
    ∃ k, ∃ hk : k < (lbPool lbWitnessCandidates).length,
      get_ollama_url_select 1 1 lbWitnessCandidates 0
          = ((lbPool lbWitnessCandidates).get ⟨k, hk⟩).idx ∧
      (∀ m ∈ lbPool lbWitnessCandidates,
        lbScore 1 1 ((lbPool lbWitnessCandidates).get ⟨k, hk⟩)
          ≤ lbScore 1 1 m) ∧
      (∀ j, ∀ hj : j < (lbPool lbWitnessCandidates).length, j < k →
        lbScore 1 1 ((lbPool lbWitnessCandidates).get ⟨k, hk⟩)
          < lbScore 1 1 ((lbPool lbWitnessCandidates).get ⟨j, hj⟩)) ∧
      ((∀ m ∈ lbWitnessCandidates,
          m.active_jobs = 0 ∧ m.avg_response_time = 0) → k = 0) :=
  get_ollama_url_select_spec 1 1 lbWitnessCandidates 0 (by decide)

/-! ## Token throughput EMA — `update_token_stats` (`routers/ollama.py`)

`update_token_stats` computes `eval_count / (eval_duration_nanos / 1e9)`,
returns early on `eval_duration_nanos <= 0` or a sample outside
`[0.1, 1000]` t/s, and otherwise folds the sample into the stored average
with `alpha = 0.3`; `_update_token_stats_memory` (and the Redis branch)
seed the average directly when no (or a zero) average is stored.  The
stored average is an `Option ℚ` (`none` = no entry for the backend); the
float constants 0.3 / 0.7 / 0.1 are modelled exactly in `ℚ`. -/

def tokensPerSecond (evalCount : ℚ) (evalNs : Int) : ℚ :=
  evalCount / ((evalNs : ℚ) / 1000000000)

def update_token_stats (prev : Option ℚ) (evalCount : ℚ) (evalNs : Int) :
    Option ℚ :=
  if evalNs ≤ 0 then prev
  else
    let tps := tokensPerSecond evalCount evalNs
    if tps < 1 / 10 ∨ 1000 < tps then prev
    else
      match prev with
      | none => some tps
      | some avg =>
          if avg = 0 then some tps
          else some (3 / 10 * tps + 7 / 10 * avg)

/-- C9: the sample is `eval_count / (eval_ns / 1e9)`; non-positive durations
and samples outside `[0.1, 1000]` t/s are discarded leaving the stored
average unchanged; an accepted sample seeds an absent average directly and
otherwise updates it by `new = 0.3·sample + 0.7·previous` (stored averages
are positive — every accepted sample is ≥ 0.1). -/
theorem update_token_stats_spec (prev : Option ℚ) (evalCount : ℚ)
    (evalNs : Int) :
    (evalNs ≤ 0 → update_token_stats prev evalCount evalNs = prev) ∧
    (0 < evalNs →
      ((tokensPerSecond evalCount evalNs < 1 / 10 ∨
          1000 < tokensPerSecond evalCount evalNs) →
        update_token_stats prev evalCount evalNs = prev) ∧
      (1 / 10 ≤ tokensPerSecond evalCount evalNs →
        tokensPerSecond evalCount evalNs ≤ 1000 →
        (prev = none →
          update_token_stats prev evalCount evalNs
            = some (tokensPerSecond evalCount evalNs)) ∧
        (∀ p, prev = some p → 0 < p →
          update_token_stats prev evalCount evalNs
            = some (3 / 10 * tokensPerSecond evalCount evalNs
                + 7 / 10 * p)))) := by
  refine ⟨?_, ?_⟩
  · intro h
    simp [update_token_stats, if_pos h]
  · intro h
    have hns : ¬ evalNs ≤ 0 := by omega
    refine ⟨?_, ?_⟩
    · intro hout
      simp only [update_token_stats, if_neg hns]
      rw [if_pos hout]
    · intro h1 h2
      have hout : ¬ (tokensPerSecond evalCount evalNs < 1 / 10 ∨
          1000 < tokensPerSecond evalCount evalNs) := by
        push_neg
        exact ⟨h1, h2⟩
      constructor
      · rintro rfl
        simp only [update_token_stats, if_neg hns]
        rw [if_neg hout]
      · rintro p rfl hp
        simp only [update_token_stats, if_neg hns]
        rw [if_neg hout, if_neg (ne_of_gt hp)]

/-- Witness for C9: `eval_count = 10`, `eval_ns = 10⁹` is a 10 t/s sample;
folded into a stored average of 5 it yields `0.3·10 + 0.7·5 = 6.5`. -/
theorem update_token_stats_spec_witness :
    update_token_stats (some 5) 10 1000000000 = some (13 / 2) := by
  have h := (update_token_stats_spec (some 5) 10 1000000000).2 (by norm_num)
  have h2 := (h.2 (by norm_num [tokensPerSecond])
    (by norm_num [tokensPerSecond])).2 5 rfl (by norm_num)
  rw [h2]
  norm_num [tokensPerSecond]

/-! ## Archive sweep — `JobArchiveTable.archive_old_jobs` (`models/jobs.py`)

The Python body wraps the whole sweep in `try/except` (it logs and never
re-raises), but assigns `archived = len(old_jobs)` BEFORE `db.commit()`.
A raise is modelled by an explicit failure point: `failBeforeCount` is an
exception anywhere up to (and including) the staging loop, `failAtCommit`
is `db.commit()` raising (the session's pending changes are rolled back,
but the local `archived` variable already holds the count). -/

/-- A row of `job_archive` (`class JobArchive`): the job's columns copied
verbatim plus `archived_at`. -/
structure JobArchiveRow where
  row : JobRow
  archived_at : Nat
deriving DecidableEq, Repr

/-- Where, if anywhere, the database raises during the sweep. -/
inductive DbOutcome where
  | ok
  | failBeforeCount
  | failAtCommit
deriving DecidableEq, Repr

/-- Filter `Job.status.in_(TERMINAL_STATUSES), Job.updated_at < cutoff`. -/
def isOldTerminal (cutoff : Int) (j : JobRow) : Bool :=
  j.status.isTerminal && decide ((j.updated_at : Int) < cutoff)

/-- Embeds `JobArchiveTable.archive_old_jobs`: returns
`(archived, job-table, job_archive-table)`. -/
def archive_old_jobs (outcome : DbOutcome) (now : Nat)
    (older_than_days : Nat) (jobs : List JobRow)
    (archive : List JobArchiveRow) :
    Nat × List JobRow × List JobArchiveRow :=
  let cutoff : Int := (now : Int) - (older_than_days : Int) * 86400
  match outcome with
  | .failBeforeCount => (0, jobs, archive)
  | .failAtCommit =>
      let old_jobs := jobs.filter (isOldTerminal cutoff)
      (old_jobs.length, jobs, archive)
  | .ok =>
      let old_jobs := jobs.filter (isOldTerminal cutoff)
      (old_jobs.length,
        jobs.filter (fun j => !(isOldTerminal cutoff j)),
        archive ++ old_jobs.map (fun j => { row := j, archived_at := now }))

/-- A terminal row old enough to be swept. -/
def oldTerminalRow : JobRow :=
  { sampleRow with status := .completed, updated_at := 0 }

/-- C7 counterexample: when `db.commit()` itself raises, the sweep does NOT
return 0 — `archived = len(old_jobs)` was assigned before the commit, so it
returns 1 for a single stale terminal row even though nothing was moved
(the tables are unchanged). -/
theorem archive_old_jobs_commit_failure_returns_count :
    (archive_old_jobs .failAtCommit 10000000 30 [oldTerminalRow] []).1 = 1 ∧
    (archive_old_jobs .failAtCommit 10000000 30 [oldTerminalRow] []).2.1
      = [oldTerminalRow] ∧
    (archive_old_jobs .failAtCommit 10000000 30 [oldTerminalRow] []).2.2
      = [] := by
  refine ⟨?_, rfl, rfl⟩
  decide

/-- C7 amended: `archive_old_jobs` never raises (it is a total function of
the failure point); a DB error before the row count is taken returns 0 with
both tables unchanged; a failure of the final commit returns the number of
rows that were staged, with both tables unchanged; on success it returns
the number of terminal rows older than the cutoff, exactly those rows leave
the active table, and they enter the archive stamped `archived_at = now`. -/
theorem archive_old_jobs_spec (outcome : DbOutcome) (now older_than_days : Nat)
    (jobs : List JobRow) (archive : List JobArchiveRow) :
    (outcome = .failBeforeCount →
      archive_old_jobs outcome now older_than_days jobs archive
        = (0, jobs, archive)) ∧
    (outcome = .failAtCommit →
      archive_old_jobs outcome now older_than_days jobs archive
        = (jobs.countP
            (isOldTerminal ((now : Int) - (older_than_days : Int) * 86400)),
           jobs, archive)) ∧
    (outcome = .ok →
      (archive_old_jobs outcome now older_than_days jobs archive).1
          = jobs.countP
              (isOldTerminal ((now : Int) - (older_than_days : Int) * 86400)) ∧
      (∀ j, j ∈ (archive_old_jobs outcome now older_than_days jobs archive).2.1
        ↔ (j ∈ jobs ∧
            isOldTerminal ((now : Int) - (older_than_days : Int) * 86400) j
              = false)) ∧
      (∀ a, a ∈ (archive_old_jobs outcome now older_than_days jobs archive).2.2
        ↔ (a ∈ archive ∨
            (a.row ∈ jobs ∧
              isOldTerminal ((now : Int) - (older_than_days : Int) * 86400)
                a.row = true ∧
              a.archived_at = now)))) := by
  refine ⟨?_, ?_, ?_⟩
  · rintro rfl; rfl
  · rintro rfl
    simp only [archive_old_jobs, List.countP_eq_length_filter]
  · rintro rfl
    refine ⟨?_, ?_, ?_⟩
    · simp only [archive_old_jobs, List.countP_eq_length_filter]
    · intro j
      simp [archive_old_jobs, List.mem_filter]
    · intro a
      constructor
      · intro ha
        rcases List.mem_append.mp ha with h | h
        · exact Or.inl h
        · obtain ⟨j, hj, rfl⟩ := List.mem_map.mp h
          obtain ⟨hj1, hj2⟩ := List.mem_filter.mp hj
          exact Or.inr ⟨hj1, hj2, rfl⟩
      · rintro (h | ⟨h1, h2, h3⟩)
        · exact List.mem_append.mpr (Or.inl h)
        · refine List.mem_append.mpr (Or.inr (List.mem_map.mpr
            ⟨a.row, List.mem_filter.mpr ⟨h1, h2⟩, ?_⟩))
          cases a with
          | mk r t => cases h3; rfl

/-- Witness for the amended C7: a successful sweep over one stale terminal
row and one fresh queued row moves exactly the stale one. -/
theorem archive_old_jobs_spec_witness :
    (archive_old_jobs .ok 10000000 30 [oldTerminalRow, sampleRow] []).1
        = [oldTerminalRow, sampleRow].countP
            (isOldTerminal ((10000000 : Int) - (30 : Int) * 86400)) ∧
    (∀ j, j ∈ (archive_old_jobs .ok 10000000 30
          [oldTerminalRow, sampleRow] []).2.1
      ↔ (j ∈ [oldTerminalRow, sampleRow] ∧
          isOldTerminal ((10000000 : Int) - (30 : Int) * 86400) j = false)) ∧
    (∀ a, a ∈ (archive_old_jobs .ok 10000000 30
          [oldTerminalRow, sampleRow] []).2.2
      ↔ (a ∈ ([] : List JobArchiveRow) ∨
          (a.row ∈ [oldTerminalRow, sampleRow] ∧
            isOldTerminal ((10000000 : Int) - (30 : Int) * 86400) a.row
              = true ∧
            a.archived_at = 10000000))) :=
  (archive_old_jobs_spec .ok 10000000 30 [oldTerminalRow, sampleRow] []).2.2
    rfl

/-! ## Daily analytics bucketing (`get_combined_analytics`, `models/jobs.py`)

SQLite path: `strftime('%Y-%m-%d', datetime(created_at, 'unixepoch'))` — the
proleptic-Gregorian (UTC) date of epoch day `created_at / 86400`.
Non-SQLite path: `day_bucket = created_at / day_secs` (integer division in
SQL, then `int(...)` in Python) followed by
`datetime.date.fromtimestamp(day_bucket * 86400).isoformat()` —
`date.fromtimestamp` interprets the timestamp in the HOST LOCAL TIMEZONE,
modelled by an explicit UTC offset `tzOffset` in seconds: the local civil
date of instant `t` is the Gregorian date of epoch day
`⌊(t + tzOffset) / 86400⌋`.  Both paths format through the same Gregorian
calendar conversion (`civilFromDays`, the standard days-to-civil
algorithm used by both C and Python date libraries). -/

/-- Proleptic-Gregorian `(year, month, day)` of an epoch-day number. -/
def civilFromDays (z0 : Int) : Int × Nat × Nat :=
  let z := z0 + 719468
  let era : Int := Int.fdiv z 146097
  let doe : Nat := (z - era * 146097).toNat
  let yoe : Nat := (doe - doe / 1460 + doe / 36524 - doe / 146097) / 365
  let y : Int := (yoe : Int) + era * 400
  let doy : Nat := doe - (365 * yoe + yoe / 4 - yoe / 100)
  let mp : Nat := (5 * doy + 2) / 153
  let d : Nat := doy - (153 * mp + 2) / 5 + 1
  let m : Nat := if mp < 10 then mp + 3 else mp - 9
  (if m ≤ 2 then y + 1 else y, m, d)

/-- Zero-padded `YYYY-MM-DD` of an epoch-day number (the output format of
both `strftime('%Y-%m-%d', ...)` and `date.isoformat()`). -/
def isoDateOfDay (day : Int) : String :=
  let c := civilFromDays day
  toString c.1 ++ "-"
    ++ (if c.2.1 < 10 then "0" ++ toString c.2.1 else toString c.2.1)
    ++ "-"
    ++ (if c.2.2 < 10 then "0" ++ toString c.2.2 else toString c.2.2)

/-- SQLite bucketing: the UTC date string of `created_at`. -/
def sqliteDailyBucket (created_at : Nat) : String :=
  isoDateOfDay ((created_at / 86400 : Nat) : Int)

/-- Non-SQLite bucketing: `int(created_at / 86400)` then
`date.fromtimestamp(day_bucket * 86400).isoformat()` at host UTC offset
`tzOffset` seconds. -/
def nonSqliteDailyBucket (tzOffset : Int) (created_at : Nat) : String :=
  let day_bucket : Nat := created_at / 86400
  isoDateOfDay (Int.fdiv ((day_bucket : Int) * 86400 + tzOffset) 86400)

/-- C8 counterexample: on a host one hour west of UTC (offset −3600 s) the
two buckets disagree at `created_at = 0` — SQLite labels the row
`1970-01-01`, the non-SQLite path `1969-12-31`. -/
theorem dailyBucket_engines_disagree :
    sqliteDailyBucket 0 = "1970-01-01" ∧
    nonSqliteDailyBucket (-3600) 0 = "1969-12-31" ∧
    nonSqliteDailyBucket (-3600) 0 ≠ sqliteDailyBucket 0 := by
  refine ⟨?_, ?_, ?_⟩ <;> decide

/-- C8 amended: the two bucketing functions agree for every timestamp
whenever the host's UTC offset is non-negative and below a day (in
particular on UTC hosts); hosts west of UTC shift start-of-day rows to the
previous date. -/
theorem dailyBucket_engines_agree_of_nonneg_offset (tzOffset : Int)
    (created_at : Nat) (h0 : 0 ≤ tzOffset) (h1 : tzOffset < 86400) :
    nonSqliteDailyBucket tzOffset created_at
      = sqliteDailyBucket created_at := by
  unfold nonSqliteDailyBucket sqliteDailyBucket
  simp only []
  have hday : Int.fdiv (((created_at / 86400 : Nat) : Int) * 86400 + tzOffset)
      86400 = ((created_at / 86400 : Nat) : Int) := by
    rw [Int.fdiv_eq_ediv _ (by omega)]
    omega
  rw [show (let day_bucket := created_at / 86400;
      isoDateOfDay ((Int.fdiv ((day_bucket : Int) * 86400 + tzOffset) 86400)))
    = isoDateOfDay ((Int.fdiv (((created_at / 86400 : Nat) : Int) * 86400
        + tzOffset) 86400)) from rfl, hday]

/-- Witness for the amended C8: a UTC+1h host buckets
`created_at = 90000` to the same date on both paths. -/
theorem dailyBucket_engines_agree_witness :
    nonSqliteDailyBucket 3600 90000 = sqliteDailyBucket 90000 :=
  dailyBucket_engines_agree_of_nonneg_offset 3600 90000 (by decide) (by decide)

/-! ## `GET /jobs/{job_id}` — `get_job` (`routers/jobs.py`)

The handler first consults the Redis cache; on `cached and include_result`
it enforces ownership via `cached.get("user_id") != user.id`.  The cached
payload is the dict `_cache_job` stored, which is exactly `_to_response`'s
`JobResponse` dump — a dict WITHOUT a `user_id` key — so that `.get`
returns `None`.  Otherwise it falls through to the DB lookup with 404/403
checks and strips `result` when `include_result` is false. -/

/-- The `JobResponse` dict built by `_to_response`; note the field list has
no `user_id`. -/
structure JobResponseData where
  job_id : String
  status : JobStatus
  model_id : Option String
  backend_url : Option String
  attempt_count : Nat
  max_attempts : Nat
  created_at : Nat
  updated_at : Nat
  result : Option String
  error : Option String
deriving DecidableEq, Repr

/-- Embeds `_to_response` (`routers/jobs.py`). -/
def to_response (j : JobRow) : JobResponseData :=
  { job_id := j.id
    status := j.status
    model_id := j.model_id
    backend_url := j.backend_url
    attempt_count := j.attempt_count
    max_attempts := j.max_attempts
    created_at := j.created_at
    updated_at := j.updated_at
    result := j.result
    error := j.error }

/-- Lookup `cached.get("user_id")`: the cached dict has only the `JobResponse`
keys above, so the lookup yields `None` for every entry. -/
def cachedUserId (_ : JobResponseData) : Option String := none

/-- HTTP outcomes of the poll handler. -/
inductive GetJobReply where
  | ok (body : JobResponseData)
  | forbidden
  | notFound
deriving DecidableEq, Repr

/-- Embeds `get_job` (`routers/jobs.py`): cache-first read, then DB with
ownership check and optional result stripping.  `cache` is the entry Redis
currently holds for this job id (`none` when absent or Redis unavailable). -/
def get_job (cache : Option JobResponseData) (s : List JobRow)
    (jobId uid : String) (include_result : Bool) : GetJobReply :=
  match cache, include_result with
  | some cached, true =>
      if cachedUserId cached = some uid then .ok cached else .forbidden
  | _, _ =>
      match findJob s jobId with
      | none => .notFound
      | some job =>
          if job.user_id = uid then
            .ok (if include_result then to_response job
                 else { to_response job with result := none })
          else .forbidden

/-- A finished job owned by `alice`; its terminal poll response is what
`_cache_job` writes to Redis. -/
def completedRow : JobRow :=
  { sampleRow with status := .completed, result := some "res" }

/-- C6 fails on the code: 404 for a missing id and 403 for a non-owner hold,
and a fresh (uncached) read serves the owner — but as soon as the response
is served from the Redis cache (the entry `_cache_job` wrote after that
first read), the ownership check `cached.get("user_id") != user.id`
compares `None` with the owner's id and the OWNER gets 403. -/
theorem get_job_cache_hit_refuses_owner :
    get_job none [completedRow] "job-9" "alice" true = .notFound ∧
    get_job none [completedRow] "job-1" "bob" true = .forbidden ∧
    get_job none [completedRow] "job-1" "alice" true
      = .ok (to_response completedRow) ∧
    get_job (some (to_response completedRow)) [completedRow] "job-1" "alice"
      true = .forbidden := by
  refine ⟨rfl, rfl, rfl, rfl⟩

/-! ## `POST /jobs/chat/completions` + its background worker
(`submit_job` and `_run_job`, `routers/jobs.py`)

`submit_job` checks the model against `app.state.MODELS`, inserts the job
through `Jobs.insert_new_job` (priority from the user, `max_attempts`
defaulting to 3) and fires `_run_job` via `create_task` before answering
202.  `_run_job` is composed of exactly three DAL calls —
`update_job_running(job_id)` (no `backend_url` argument), then
`update_job_completed` on success or `update_job_failed(requeue=True)` on
exception — it never touches the scheduler's `_claim_next_queued_job`. -/

/-- Replies of the submit handler. -/
inductive SubmitReply where
  | accepted (job_id : String) (status : JobStatus) (model_id : Option String)
      (created_at : Nat)
  | modelNotFound
deriving DecidableEq, Repr

/-- Embeds `submit_job` (`routers/jobs.py`), successful-insert path: the DAL insert
is total here; a `None` insert maps to HTTP 500 and is outside the claim,
which quantifies over successful submissions. -/
def submit_job (now : Nat) (newId : String) (models : List String)
    (s : List JobRow) (uid model payload : String) (priority : Int) :
    SubmitReply × List JobRow :=
  if model ∉ models then (.modelNotFound, s)
  else
    let ins := insert_new_job now newId uid model payload priority 3 s
    (.accepted ins.1.id .queued ins.1.model_id ins.1.created_at, ins.2)

/-- Embeds `_run_job` (`routers/jobs.py`): the worker spawned by the submit
handler.  `outcome` is the result of `generate_chat_completion` — `.ok` a
response body, `.error` the exception message. -/
def run_job (now1 now2 : Nat) (s : List JobRow) (jobId : String)
    (outcome : Except String String) : List JobRow :=
  let s1 := (update_job_running now1 s jobId none).2
  match outcome with
  | .ok result => (update_job_completed now2 s1 jobId result).2
  | .error e => (update_job_failed now2 s1 jobId e true).2

theorem findJob_append_fresh (s : List JobRow) (row : JobRow)
    (hfresh : ∀ r ∈ s, r.id ≠ row.id) :
    findJob (s ++ [row]) row.id = some row := by
  induction s with
  | nil => simp [findJob]
  | cons r rest ih =>
      have hr : r.id ≠ row.id := hfresh r (List.mem_cons_self r rest)
      simp only [List.cons_append, findJob, List.find?_cons,
        decide_eq_false hr]
      exact ih (fun x hx => hfresh x (List.mem_cons_of_mem r hx))

/-- C10: on a successful submit the handler answers 202 with
`status=queued`, the persisted row is `queued` with `attempt_count = 0` and
`backend_url = NULL`; the worker the handler itself spawns (`_run_job`)
then drives that very row — first `update_job_running` with no backend
argument (so `attempt_count` becomes exactly 1 and `backend_url` stays
`NULL`), then a terminal write: `completed` on success, or the
`requeue=True` failure write, which lands this first attempt back in
`queued` (`1 < max_attempts = 3`; exhaustion would yield `failed`).
`run_job` is built from those three DAL calls only — the scheduler's
`_claim_next_queued_job` never appears in the pipeline. -/
theorem submit_and_run_job_spec (now now1 now2 : Nat) (newId : String)
    (models : List String) (s : List JobRow) (uid model payload : String)
    (priority : Int) (outcome : Except String String)
    (hmodel : model ∈ models) (hfresh : ∀ r ∈ s, r.id ≠ newId) :
    (submit_job now newId models s uid model payload priority).1
        = .accepted newId .queued (some model) now ∧
    (findJob (submit_job now newId models s uid model payload priority).2
          newId).map (fun j => (j.status, j.attempt_count, j.backend_url))
        = some (.queued, 0, none) ∧
    (findJob (update_job_running now1
          (submit_job now newId models s uid model payload priority).2
          newId none).2 newId).map
        (fun j => (j.status, j.attempt_count, j.backend_url))
        = some (.running, 1, none) ∧
    (findJob (run_job now1 now2
          (submit_job now newId models s uid model payload priority).2
          newId outcome) newId).map JobRow.status
        = some (match outcome with
                | .ok _ => JobStatus.completed
                | .error _ => JobStatus.queued) := by
  obtain ⟨row, hrow⟩ :
      ∃ row, (insert_new_job now newId uid model payload priority 3 s).1
        = row := ⟨_, rfl⟩
  have hid : row.id = newId := by rw [← hrow]; rfl
  have hst : row.status = .queued := by rw [← hrow]; rfl
  have hac : row.attempt_count = 0 := by rw [← hrow]; rfl
  have hma : row.max_attempts = 3 := by rw [← hrow]; rfl
  have hbu : row.backend_url = none := by rw [← hrow]; rfl
  have hsub1 : (submit_job now newId models s uid model payload priority).1
      = .accepted newId .queued (some model) now := by
    unfold submit_job
    rw [if_neg (not_not_intro hmodel)]
    rfl
  have hsub2 : (submit_job now newId models s uid model payload priority).2
      = s ++ [row] := by
    unfold submit_job
    rw [if_neg (not_not_intro hmodel), ← hrow]
    rfl
  have hfind1 : findJob (s ++ [row]) newId = some row := by
    rw [← hid]
    exact findJob_append_fresh s row (fun r hr => hid ▸ hfresh r hr)
  have hrun2 : (update_job_running now1 (s ++ [row]) newId none).2
      = updateFirst (s ++ [row]) newId (fun j =>
          { j with
            status := .running
            attempt_count := j.attempt_count + 1
            backend_url := j.backend_url
            updated_at := now1 }) := by
    unfold update_job_running
    rw [hfind1]
  have hfind2 : findJob (updateFirst (s ++ [row]) newId (fun j =>
        { j with
          status := .running
          attempt_count := j.attempt_count + 1
          backend_url := j.backend_url
          updated_at := now1 })) newId
      = some { row with
          status := .running
          attempt_count := row.attempt_count + 1
          backend_url := row.backend_url
          updated_at := now1 } := by
    have hstep := findJob_updateFirst (s ++ [row]) newId (fun j =>
        { j with
          status := .running
          attempt_count := j.attempt_count + 1
          backend_url := j.backend_url
          updated_at := now1 }) (fun r => rfl)
    rw [hstep, hfind1]
    rfl
  refine ⟨hsub1, ?_, ?_, ?_⟩
  · rw [hsub2, hfind1, Option.map_some']
    rw [hst, hac, hbu]
  · rw [hsub2, hrun2, hfind2, Option.map_some']
    simp only [hac, hbu]
  · rw [hsub2]
    cases outcome with
    | ok res =>
        have hstep : run_job now1 now2 (s ++ [row]) newId (.ok res)
            = (update_job_completed now2
                (update_job_running now1 (s ++ [row]) newId none).2
                newId res).2 := rfl
        have hfindS1 : findJob
            (update_job_running now1 (s ++ [row]) newId none).2 newId
            = some { row with
                status := .running
                attempt_count := row.attempt_count + 1
                backend_url := row.backend_url
                updated_at := now1 } := by
          rw [hrun2]; exact hfind2
        have hcomp2 : (update_job_completed now2
            (update_job_running now1 (s ++ [row]) newId none).2
            newId res).2
            = updateFirst
                (update_job_running now1 (s ++ [row]) newId none).2 newId
                (fun j =>
                  { j with
                    status := .completed
                    result := some res
                    error := none
                    updated_at := now2 }) := by
          unfold update_job_completed
          rw [hfindS1]
        have hfind3 : findJob (updateFirst
            (update_job_running now1 (s ++ [row]) newId none).2 newId
            (fun j =>
              { j with
                status := .completed
                result := some res
                error := none
                updated_at := now2 })) newId
            = some { row with
                status := .completed
                attempt_count := row.attempt_count + 1
                backend_url := row.backend_url
                result := some res
                error := none
                updated_at := now2 } := by
          have hstep3 := findJob_updateFirst
              (update_job_running now1 (s ++ [row]) newId none).2 newId
              (fun j =>
                { j with
                  status := .completed
                  result := some res
                  error := none
                  updated_at := now2 }) (fun r => rfl)
          rw [hstep3, hfindS1]
          rfl
        rw [hstep, hcomp2, hfind3, Option.map_some']
    | error e =>
        have hstep : run_job now1 now2 (s ++ [row]) newId (.error e)
            = (update_job_failed now2
                (update_job_running now1 (s ++ [row]) newId none).2
                newId e true).2 := rfl
        have hfindS1 : findJob
            (update_job_running now1 (s ++ [row]) newId none).2 newId
            = some { row with
                status := .running
                attempt_count := row.attempt_count + 1
                backend_url := row.backend_url
                updated_at := now1 } := by
          rw [hrun2]; exact hfind2
        have hfail2 : (update_job_failed now2
            (update_job_running now1 (s ++ [row]) newId none).2
            newId e true).2
            = updateFirst
                (update_job_running now1 (s ++ [row]) newId none).2 newId
                (fun j =>
                  { j with
                    error := some e
                    status :=
                      if (true : Bool) ∧ j.attempt_count < j.max_attempts
                      then .queued else .failed
                    updated_at := now2 }) := by
          unfold update_job_failed
          rw [hfindS1]
        have hfind3 : findJob (updateFirst
            (update_job_running now1 (s ++ [row]) newId none).2 newId
            (fun j =>
              { j with
                error := some e
                status :=
                  if (true : Bool) ∧ j.attempt_count < j.max_attempts
                  then .queued else .failed
                updated_at := now2 })) newId
            = some { row with
                status :=
                  if (true : Bool) ∧ row.attempt_count + 1 < row.max_attempts
                  then .queued else .failed
                attempt_count := row.attempt_count + 1
                backend_url := row.backend_url
                error := some e
                updated_at := now2 } := by
          have hstep3 := findJob_updateFirst
              (update_job_running now1 (s ++ [row]) newId none).2 newId
              (fun j =>
                { j with
                  error := some e
                  status :=
                    if (true : Bool) ∧ j.attempt_count < j.max_attempts
                    then .queued else .failed
                  updated_at := now2 }) (fun r => rfl)
          rw [hstep3, hfindS1]
          rfl
        rw [hstep, hfail2, hfind3, Option.map_some']
        simp [hac, hma]

/-- Witness for C10: a concrete successful submit of `llama3` followed by a
successful worker run. -/
theorem submit_and_run_job_spec_witness :
    (submit_job 100 "job-9" ["llama3"] [] "alice" "llama3" "p" 5).1
        = .accepted "job-9" .queued (some "llama3") 100 ∧
    (findJob (submit_job 100 "job-9" ["llama3"] [] "alice" "llama3" "p" 5).2
          "job-9").map (fun j => (j.status, j.attempt_count, j.backend_url))
        = some (.queued, 0, none) ∧
    (findJob (update_job_running 110
          (submit_job 100 "job-9" ["llama3"] [] "alice" "llama3" "p" 5).2
          "job-9" none).2 "job-9").map
        (fun j => (j.status, j.attempt_count, j.backend_url))
        = some (.running, 1, none) ∧
    (findJob (run_job 110 120
          (submit_job 100 "job-9" ["llama3"] [] "alice" "llama3" "p" 5).2
          "job-9" (.ok "res")) "job-9").map JobRow.status
        = some (match (Except.ok "res" : Except String String) with
                | .ok _ => JobStatus.completed
                | .error _ => JobStatus.queued) :=
  submit_and_run_job_spec 100 110 120 "job-9" ["llama3"] [] "alice" "llama3"
    "p" 5 (.ok "res") (List.mem_cons_self _ _)
    (fun r hr => absurd hr (List.not_mem_nil r))
